import Mathlib

/-!
# A shallow embedding of headscale's ACL policy compiler (hscontrol/policy/acls.go)

This file embeds the data model and the operations of the policy compiler:
alias expansion, filter-rule compilation (including the `autogroup:self`
split rewrite), SSH-rule compilation, the per-node reducer, and the port /
protocol parsers.  IP sets are modelled exactly as the `netipx` library the
code uses: a set is a canonical family-separated list of inclusive address
ranges; adding a prefix inserts and merges, removing a prefix subtracts, and
enumerating prefixes decomposes each range greedily into maximal aligned
blocks, which is the canonical minimal-prefix decomposition `netipx`
produces.  Machine strings are Lean `String`s, but every string operation
used by the model is implemented here by structural recursion on the
character list so that concrete executions reduce inside the kernel.
-/

namespace HSPolicy

/-! ## String helpers (structural versions of the Go `strings` operations) -/

/-- Splits a character list at every occurrence of the separator, keeping
empty segments, like Go's `strings.Split` with a one-character separator. -/
def splitOnChar (sep : Char) : List Char → List (List Char)
  | [] => [[]]
  | c :: rest =>
    match splitOnChar sep rest with
    | [] => [[]]
    | seg :: segs => if c == sep then [] :: seg :: segs else (c :: seg) :: segs

/-- String equality through the underlying character lists. -/
def strEq (a b : String) : Bool := a.data == b.data

/-- Prefix test on character lists (cases on the pattern list first so that
`isPfxOf p.data (p.data ++ t)` reduces definitionally). -/
def isPfxOf : List Char → List Char → Bool
  | [], _ => true
  | a :: as, l =>
    match l with
    | [] => false
    | b :: bs => a == b && isPfxOf as bs

/-- Go's `strings.HasPrefix`, on the underlying character lists. -/
def strHasPfx (s p : String) : Bool := isPfxOf p.data s.data

/-- Go's `strings.Contains` for a one-character needle. -/
def strHasChar (s : String) (c : Char) : Bool := s.data.contains c

/-- Go's `strings.TrimSuffix`: drop the suffix when present. -/
def trimSuffixL (l suf : List Char) : List Char :=
  if suf.isSuffixOf l then l.take (l.length - suf.length) else l

/-- Decimal digit value of a character, if it is a digit. -/
def digitVal (c : Char) : Option Nat :=
  if '0' ≤ c ∧ c ≤ '9' then some (c.toNat - '0'.toNat) else none

/-- Parses a non-empty all-digit character list as a decimal natural. -/
def parseDecAux : List Char → Nat → Option Nat
  | [], acc => some acc
  | c :: rest, acc =>
    match digitVal c with
    | some d => parseDecAux rest (acc * 10 + d)
    | none => none

/-- Decimal parse of a character list; `none` on empty or non-digit input,
mirroring Go's `strconv.ParseUint` shape (no sign, base 10). -/
def parseDec : List Char → Option Nat
  | [] => none
  | l => parseDecAux l 0

/-- Go's `strconv.ParseUint(s, 10, 16)`: decimal digits fitting 16 bits. -/
def parseUint16 (l : List Char) : Option Nat :=
  match parseDec l with
  | some v => if v < 65536 then some v else none
  | none => none

/-- Go's `strconv.Atoi`: an optional sign followed by decimal digits. -/
def atoi (s : String) : Option Int :=
  match s.data with
  | '-' :: rest => (parseDec rest).map (fun n => -(n : Int))
  | '+' :: rest => (parseDec rest).map (fun n => (n : Int))
  | l => (parseDec l).map (fun n => (n : Int))

/-- Decimal rendering of a natural, digit list built structurally on fuel. -/
def natDigits : Nat → Nat → List Char
  | 0, _ => []
  | fuel + 1, n =>
    let d := Char.ofNat (n % 10 + '0'.toNat)
    if n < 10 then [d] else natDigits fuel (n / 10) ++ [d]

/-- Decimal rendering of a natural number. -/
def natToStr (n : Nat) : String := ⟨natDigits (n + 1) n⟩

/-- Hexadecimal digit character (lowercase). -/
def hexDigit (n : Nat) : Char :=
  if n < 10 then Char.ofNat (n + '0'.toNat) else Char.ofNat (n - 10 + 'a'.toNat)

/-- Four-digit lowercase hexadecimal group rendering. -/
def hexGroup (n : Nat) : List Char :=
  [hexDigit (n / 4096 % 16), hexDigit (n / 256 % 16), hexDigit (n / 16 % 16),
   hexDigit (n % 16)]

/-! ## Addresses, prefixes and canonical IP sets

Addresses are family-tagged naturals (32-bit for IPv4, 128-bit for IPv6).
A prefix carries its family, base address and mask length; its address range
masks the base, as `netip.Prefix` canonicalisation does. -/

/-- An IP address: an IPv4 or IPv6 value as a natural number. -/
inductive IPAddr where
  | v4 (n : Nat)
  | v6 (n : Nat)
deriving DecidableEq, Repr

/-- An IP prefix (CIDR): family flag, base address, mask length. -/
structure IPPfx where
  isV6 : Bool
  addr : Nat
  len : Nat
deriving DecidableEq, Repr

/-- Bit width of the prefix's address family. -/
def IPPfx.width (p : IPPfx) : Nat := if p.isV6 then 128 else 32

/-- Low end of the prefix's address range (the masked base). -/
def IPPfx.lo (p : IPPfx) : Nat :=
  p.addr / 2 ^ (p.width - p.len) * 2 ^ (p.width - p.len)

/-- High end (inclusive) of the prefix's address range. -/
def IPPfx.hi (p : IPPfx) : Nat := p.lo + 2 ^ (p.width - p.len) - 1

/-- Whether an address lies inside a prefix (families must match). -/
def IPPfx.containsAddr (p : IPPfx) (a : IPAddr) : Bool :=
  match a with
  | .v4 n => !p.isV6 && decide (p.lo ≤ n) && decide (n ≤ p.hi)
  | .v6 n => p.isV6 && decide (p.lo ≤ n) && decide (n ≤ p.hi)

/-- An inclusive address range within one family. -/
structure IPRange where
  lo : Nat
  hi : Nat
deriving DecidableEq, Repr

/-- Inserts a range into a sorted disjoint non-adjacent range list, merging
overlapping or adjacent ranges; this is the `netipx` builder's union step. -/
def addRange : List IPRange → IPRange → List IPRange
  | [], r => [r]
  | s :: rest, r =>
    if r.hi + 1 < s.lo then r :: s :: rest
    else if s.hi + 1 < r.lo then s :: addRange rest r
    else addRange rest ⟨min s.lo r.lo, max s.hi r.hi⟩

/-- Subtracts a range from a canonical range list. -/
def removeRange : List IPRange → IPRange → List IPRange
  | [], _ => []
  | s :: rest, r =>
    let tail := removeRange rest r
    if s.hi < r.lo || r.hi < s.lo then s :: tail
    else
      (if s.lo < r.lo then [⟨s.lo, r.lo - 1⟩] else []) ++
        (if r.hi < s.hi then [⟨r.hi + 1, s.hi⟩] else []) ++ tail

/-- Membership of an address value in a range list. -/
def containsN (rs : List IPRange) (n : Nat) : Bool :=
  rs.any (fun r => decide (r.lo ≤ n) && decide (n ≤ r.hi))

/-- Whether two inclusive ranges intersect. -/
def rangesOverlap (a b : IPRange) : Bool :=
  decide (a.lo ≤ b.hi) && decide (b.lo ≤ a.hi)

/-- A canonical IP set: family-separated canonical range lists.  This models
`netipx.IPSet` (and its builder, whose build step never fails here). -/
structure IPSet where
  r4 : List IPRange
  r6 : List IPRange
deriving DecidableEq, Repr

/-- The empty IP set. -/
def emptySet : IPSet := ⟨[], []⟩

/-- `netipx.IPSetBuilder.AddPrefix`. -/
def IPSet.addPfx (s : IPSet) (p : IPPfx) : IPSet :=
  if p.isV6 then ⟨s.r4, addRange s.r6 ⟨p.lo, p.hi⟩⟩
  else ⟨addRange s.r4 ⟨p.lo, p.hi⟩, s.r6⟩

/-- `netipx.IPSetBuilder.RemovePrefix`. -/
def IPSet.removePfx (s : IPSet) (p : IPPfx) : IPSet :=
  if p.isV6 then ⟨s.r4, removeRange s.r6 ⟨p.lo, p.hi⟩⟩
  else ⟨removeRange s.r4 ⟨p.lo, p.hi⟩, s.r6⟩

/-- `netipx.IPSetBuilder.Add`: a single address as a one-address range. -/
def IPSet.addAddr (s : IPSet) (a : IPAddr) : IPSet :=
  match a with
  | .v4 n => ⟨addRange s.r4 ⟨n, n⟩, s.r6⟩
  | .v6 n => ⟨s.r4, addRange s.r6 ⟨n, n⟩⟩

/-- `netipx.IPSetBuilder.AddSet`: union with another set. -/
def IPSet.addSet (s : IPSet) (t : IPSet) : IPSet :=
  ⟨t.r4.foldl addRange s.r4, t.r6.foldl addRange s.r6⟩

/-- `netipx.IPSet.Contains`. -/
def IPSet.containsAddr (s : IPSet) (a : IPAddr) : Bool :=
  match a with
  | .v4 n => containsN s.r4 n
  | .v6 n => containsN s.r6 n

/-- `netipx.IPSet.OverlapsPrefix`: the set intersects the prefix's range. -/
def IPSet.overlapsPfx (s : IPSet) (p : IPPfx) : Bool :=
  if p.isV6 then s.r6.any (rangesOverlap ⟨p.lo, p.hi⟩)
  else s.r4.any (rangesOverlap ⟨p.lo, p.hi⟩)

/-- Largest block exponent `k` such that `lo` is `2^k`-aligned and the block
`[lo, lo+2^k-1]` stays within `hi`; the greedy step of `netipx`'s
range-to-prefix decomposition. -/
def chooseK (lo hi : Nat) : Nat → Nat
  | 0 => 0
  | k + 1 =>
    if lo % 2 ^ (k + 1) = 0 ∧ lo + 2 ^ (k + 1) ≤ hi + 1 then k + 1
    else chooseK lo hi k

/-- Greedy decomposition of a range into maximal aligned prefixes, on fuel
(the fuel passed by `rangePfxs` always suffices since each step advances
`lo` by at least one). -/
def rangePfxsF (isV6 : Bool) (w : Nat) : Nat → Nat → Nat → List IPPfx
  | 0, _, _ => []
  | fuel + 1, lo, hi =>
    if lo ≤ hi then
      let k := chooseK lo hi w
      ⟨isV6, lo, w - k⟩ :: rangePfxsF isV6 w fuel (lo + 2 ^ k) hi
    else []

/-- Canonical prefix decomposition of one range. -/
def rangePfxs (isV6 : Bool) (w : Nat) (r : IPRange) : List IPPfx :=
  rangePfxsF isV6 w (r.hi + 1 - r.lo) r.lo r.hi

/-- `netipx.IPSet.Prefixes()`: canonical minimal prefixes, IPv4 first (the
`netip` address order sorts IPv4 before IPv6). -/
def IPSet.pfxs (s : IPSet) : List IPPfx :=
  s.r4.flatMap (rangePfxs false 32) ++ s.r6.flatMap (rangePfxs true 128)

/-! ## Address and prefix rendering / parsing

Only the textual forms the compiler manipulates are needed.  IPv4 text is
rendered and parsed exactly as `netip` does (dotted quad, no leading
zeros).  IPv6 text is rendered as eight uncompressed lowercase hex groups;
the Go library compresses zero runs, a difference of presentation only, and
textual IPv6 input is not modelled (`parseAddrStr` rejects it). -/

/-- Renders an IPv4 address value as a dotted quad. -/
def renderV4 (n : Nat) : String :=
  natToStr (n / 2 ^ 24 % 256) ++ "." ++ natToStr (n / 2 ^ 16 % 256) ++ "." ++
    natToStr (n / 2 ^ 8 % 256) ++ "." ++ natToStr (n % 256)

/-- Renders an IPv6 address value as eight uncompressed hex groups. -/
def renderV6 (n : Nat) : String :=
  ⟨hexGroup (n / 2 ^ 112 % 65536) ++ ':' :: hexGroup (n / 2 ^ 96 % 65536) ++
    ':' :: hexGroup (n / 2 ^ 80 % 65536) ++ ':' :: hexGroup (n / 2 ^ 64 % 65536) ++
    ':' :: hexGroup (n / 2 ^ 48 % 65536) ++ ':' :: hexGroup (n / 2 ^ 32 % 65536) ++
    ':' :: hexGroup (n / 2 ^ 16 % 65536) ++ ':' :: hexGroup (n % 65536)⟩

/-- Renders an address. -/
def renderAddr : IPAddr → String
  | .v4 n => renderV4 n
  | .v6 n => renderV6 n

/-- Renders a prefix in CIDR form, `netip.Prefix.String`. -/
def renderPfx (p : IPPfx) : String :=
  renderAddr (if p.isV6 then .v6 p.addr else .v4 p.addr) ++ "/" ++ natToStr p.len

/-- Parses one canonical decimal octet (0..255, no leading zeros). -/
def parseOctet (l : List Char) : Option Nat :=
  match parseDec l with
  | some v => if v ≤ 255 ∧ (natToStr v).data = l then some v else none
  | none => none

/-- `netip.ParseAddr` restricted to IPv4 dotted quads; the model does not
accept textual IPv6 (the compiler paths under study never present one). -/
def parseAddrStr (s : String) : Option IPAddr :=
  match splitOnChar '.' s.data with
  | [a, b, c, d] =>
    match parseOctet a, parseOctet b, parseOctet c, parseOctet d with
    | some x, some y, some z, some w =>
      some (.v4 (x * 2 ^ 24 + y * 2 ^ 16 + z * 2 ^ 8 + w))
    | _, _, _, _ => none
  | _ => none

/-- `netip.ParsePrefix` (IPv4 CIDR form). -/
def parsePfxStr (s : String) : Option IPPfx :=
  match splitOnChar '/' s.data with
  | [a, l] =>
    match parseAddrStr ⟨a⟩, parseDec l with
    | some (.v4 n), some len =>
      if len ≤ 32 ∧ (natToStr len).data = l then some ⟨false, n, len⟩ else none
    | _, _ => none
  | _ => none

/-! ## The policy AST and the fleet snapshot

The `ACLPolicy`, `ACL` and `SSH` struct declarations and the node type live
in repository files outside the excerpt (`hscontrol/policy/acls_types.go`,
`hscontrol/types`); the fields below are the ones `acls.go` reads, modelled
from the spec's data model (§3) and interface list (§6). -/

/-- Modelled from the spec: a node's user (an id and a name). -/
structure User where
  ID : Nat
  Name : String
deriving DecidableEq, Repr

/-- Modelled from the spec: host-info carrying self-asserted request-tags
and the prefixes the node routes. -/
structure Hostinfo where
  RequestTags : List String
  RoutableIPs : List IPPfx
deriving DecidableEq, Repr

/-- Modelled from the spec: a fleet node — identity, owning user, assigned
IPs, optional host-info and administratively forced tags. -/
structure Node where
  ID : Nat
  User : User
  IPs : List IPAddr
  Hostinfo : Option Hostinfo
  ForcedTags : List String
deriving DecidableEq, Repr

/-- Modelled from the spec: `node.AppendToIPSet(builder)` adds every one of
the node's addresses to the builder. -/
def Node.appendToIPSet (node : Node) (s : IPSet) : IPSet :=
  node.IPs.foldl IPSet.addAddr s

/-- Modelled from the spec: `node.InIPSet(set)` is true when any of the
node's addresses lies in the set. -/
def Node.inIPSet (node : Node) (s : IPSet) : Bool :=
  node.IPs.any s.containsAddr

/-- Modelled from the spec: `nodes.FilterByIP(ip)` keeps the nodes that
carry the given address. -/
def filterByIP (nodes : List Node) (ip : IPAddr) : List Node :=
  nodes.filter (fun node => node.IPs.contains ip)

/-- Modelled from the spec: an access rule (`acls` entry). -/
structure ACL where
  Action : String
  Protocol : String
  Sources : List String
  Destinations : List String
deriving DecidableEq, Repr

/-- Modelled from the spec: an SSH rule (`ssh` entry). -/
structure SSH where
  Action : String
  CheckPeriod : String
  Sources : List String
  Destinations : List String
  Users : List String
deriving DecidableEq, Repr

/-- Modelled from the spec: the policy root.  The maps are association
lists (`groups`, `tagOwners`, `Hosts`); host values are CIDR prefixes. -/
structure ACLPolicy where
  Groups : List (String × List String)
  Hosts : List (String × IPPfx)
  TagOwners : List (String × List String)
  ACLs : List ACL
  SSHs : List SSH
deriving DecidableEq, Repr

/-! ## Output types (the `tailcfg` shapes the compiler emits) -/

/-- Modelled from the spec: an inclusive 16-bit port range. -/
structure PortRange where
  First : Nat
  Last : Nat
deriving DecidableEq, Repr

/-- Modelled from the spec: a destination, an IP (or CIDR or `*`) string
paired with a port range. -/
structure NetPortRange where
  IP : String
  Ports : PortRange
deriving DecidableEq, Repr

/-- Modelled from the spec: a compiled filter rule. -/
structure FilterRule where
  SrcIPs : List String
  DstPorts : List NetPortRange
  IPProto : List Int
deriving DecidableEq, Repr

/-- Modelled from the spec: `tailcfg.FilterAllowAll`, the allow-all filter
rule list (wildcard source, wildcard destination over the full port range,
default protocols). -/
def FilterAllowAll : List FilterRule :=
  [⟨["*"], [⟨"*", ⟨0, 65535⟩⟩], []⟩]

/-- Modelled from the spec: an SSH principal — wildcard-any, a user login,
or a node IP (unused alternatives stay at their zero values). -/
structure SSHPrincipal where
  Any : Bool
  UserLogin : String
  NodeIP : String
deriving DecidableEq, Repr

/-- Modelled from the spec: a compiled SSH action.  `SessionDuration` is in
nanoseconds as Go's `time.Duration`. -/
structure SSHActionT where
  Message : String
  Reject : Bool
  Accept : Bool
  SessionDuration : Int
  AllowAgentForwarding : Bool
  HoldAndDelegate : String
  AllowLocalPortForwarding : Bool
deriving DecidableEq, Repr

/-- Modelled from the spec: a compiled SSH rule.  `SSHUsers` is a map in
Go; the model keeps the insertion-ordered pairs. -/
structure SSHRule where
  Principals : List SSHPrincipal
  SSHUsers : List (String × String)
  Action : SSHActionT
deriving DecidableEq, Repr

/-- Modelled from the spec: the compiled SSH policy. -/
structure SSHPolicy where
  Rules : List SSHRule
deriving DecidableEq, Repr

/-! ## Errors

One constructor per distinguishable error value produced in `acls.go`; the
`fmt.Errorf` wrappings that add positional context are constructors carrying
that context.  `outOfFuel` has no Go counterpart: it marks resolution depth
exhaustion in the model where Go would loop (see `ExpandAlias`) and is
unreachable on the inputs treated here. -/

/-- Error values of the policy compiler. -/
inductive Err where
  | invalidAction
  | invalidGroup (info : String)
  | invalidTag (tag : String)
  | invalidPortFormat
  | wildcardNeeded
  | unknownAutogroup (alias_ : String)
  | autogroupSelf
  | destParseErr (dest : String)
  | portNumErr
  | protoAtoiErr
  | protoErr (e : Err)
  | aclSrcErr (aclIndex srcIndex : Nat) (e : Err)
  | sshGroupErr (index innerIndex : Nat) (e : Err)
  | sshAliasErr (index innerIndex : Nat) (e : Err)
  | sshCheckErr (index : Nat) (e : Err)
  | sshUnknownAction (action : String) (index : Nat)
  | durationErr (s : String)
  | parseIPErr (s : String)
  | outOfFuel
deriving DecidableEq, Repr

/-! ## Constants and classifiers (`acls.go` lines 33–45, 1048–1062) -/

/-- `autogroup:internet` literal. -/
def autogroupInternet : String := "autogroup:internet"

/-- `autogroup:self` literal. -/
def autogroupSelf : String := "autogroup:self"

/-- `autogroup:member` literal. -/
def autogroupMember : String := "autogroup:member"

/-- `autogroup:tagged` literal. -/
def autogroupTagged : String := "autogroup:tagged"

/-- `autogroup:danger-all` literal. -/
def autogroupDangerAll : String := "autogroup:danger-all"

/-- `isWildcard`: the alias is the literal `*`. -/
def isWildcard (str : String) : Bool := strEq str "*"

/-- `isGroup`: the alias starts with `group:`. -/
def isGroup (str : String) : Bool := strHasPfx str "group:"

/-- `isTag`: the alias starts with `tag:`. -/
def isTag (str : String) : Bool := strHasPfx str "tag:"

/-- `isAutoGroup`: the alias starts with `autogroup:`. -/
def isAutoGroup (str : String) : Bool := strHasPfx str "autogroup:"

/-! ## The memoised universal sets (`allIPs`, `theInternet`) -/

/-- `allIPs`: `::/0` plus `0.0.0.0/0`. -/
def allIPs : IPSet :=
  (emptySet.addPfx ⟨true, 0, 0⟩).addPfx ⟨false, 0, 0⟩

/-- `theInternet`: builds `2000::/3` plus `0.0.0.0/0`, then removes the
private, mesh and link-local carve-outs, in the source's order. -/
def theInternet : IPSet :=
  ((((((((emptySet.addPfx ⟨true, 0x2000 * 2 ^ 112, 3⟩).addPfx
      ⟨false, 0, 0⟩).removePfx
      ⟨true, 0xfc00 * 2 ^ 112, 7⟩).removePfx
      ⟨false, 10 * 2 ^ 24, 8⟩).removePfx
      ⟨false, 172 * 2 ^ 24 + 16 * 2 ^ 16, 12⟩).removePfx
      ⟨false, 192 * 2 ^ 24 + 168 * 2 ^ 16, 16⟩).removePfx
      ⟨true, 0xfd7a115ca1e0 * 2 ^ 80, 48⟩).removePfx
      ⟨false, 100 * 2 ^ 24 + 64 * 2 ^ 16, 10⟩).removePfx
      ⟨true, 0xfe80 * 2 ^ 112, 10⟩
    |>.removePfx ⟨false, 169 * 2 ^ 24 + 254 * 2 ^ 16, 16⟩

/-! ## Protocol, port and destination parsing -/

/-- `parseProtocol`: maps the ACL protocol string to IANA numbers plus the
needs-wildcard-port flag (`acls.go` lines 575–613). -/
def parseProtocol (protocol : String) : Except Err (List Int × Bool) :=
  if strEq protocol "" then .ok ([], false)
  else if strEq protocol "igmp" then .ok ([2], true)
  else if strEq protocol "ipv4" || strEq protocol "ip-in-ip" then .ok ([4], true)
  else if strEq protocol "tcp" then .ok ([6], false)
  else if strEq protocol "egp" then .ok ([8], true)
  else if strEq protocol "igp" then .ok ([9], true)
  else if strEq protocol "udp" then .ok ([17], false)
  else if strEq protocol "gre" then .ok ([47], true)
  else if strEq protocol "esp" then .ok ([50], true)
  else if strEq protocol "ah" then .ok ([51], true)
  else if strEq protocol "sctp" then .ok ([132], false)
  else if strEq protocol "icmp" then .ok ([1, 58], true)
  else
    match atoi protocol with
    | none => .error .protoAtoiErr
    | some n =>
      .ok ([n], n ≠ 6 ∧ n ≠ 17 ∧ n ≠ 132)

/-- One element of `expandPorts`'s loop: parse `N` or `N-M`. -/
def expandPortPiece (piece : List Char) : Except Err PortRange :=
  match splitOnChar '-' piece with
  | [single] =>
    match parseUint16 single with
    | some port => .ok ⟨port, port⟩
    | none => .error .portNumErr
  | [first, second] =>
    match parseUint16 first with
    | some start =>
      match parseUint16 second with
      | some last => .ok ⟨start, last⟩
      | none => .error .portNumErr
    | none => .error .portNumErr
  | _ => .error .invalidPortFormat

/-- The comma loop of `expandPorts`. -/
def expandPortsList : List (List Char) → Except Err (List PortRange)
  | [] => .ok []
  | piece :: rest => do
    let pr ← expandPortPiece piece
    let prs ← expandPortsList rest
    .ok (pr :: prs)

/-- `expandPorts` (`acls.go` lines 742–788): `*` expands to the full range;
otherwise a port list is only legal when the protocol does not require a
wildcard port. -/
def expandPorts (portsStr : String) (isWild : Bool) : Except Err (List PortRange) :=
  if isWildcard portsStr then .ok [⟨0, 65535⟩]
  else if isWild then .error .wildcardNeeded
  else expandPortsList (splitOnChar ',' portsStr.data)

/-- `parseDestination` (`acls.go` lines 516–563): split `alias:port`, with
the special re-join for bare IPv6 literals carrying a trailing port. -/
def parseDestination (dest : String) : Except Err (String × String) :=
  let tokens := splitOnChar ':' dest.data
  if tokens.length < 2 || tokens.length > 3 then
    let port := (tokens.getLast?.getD [])
    let maybeIPv6Str := trimSuffixL dest.data (':' :: port)
    let filtered :=
      if (maybeIPv6Str).contains '/' then (splitOnChar '/' maybeIPv6Str).headD []
      else maybeIPv6Str
    match parseAddrStr ⟨filtered⟩ with
    | none => .error (.destParseErr dest)
    | some _ => .ok (⟨maybeIPv6Str⟩, ⟨port⟩)
  else
    match tokens with
    | [a, p] => .ok (⟨a⟩, ⟨p⟩)
    | [a, b, p] => .ok (⟨a ++ ':' :: b⟩, ⟨p⟩)
    | _ => .error (.destParseErr dest)

/-! ## Alias expansion -/

/-- Association-list lookup keyed by string equality (the Go map reads). -/
def lookupStr {α : Type} : List (String × α) → String → Option α
  | [], _ => none
  | (k, v) :: rest, key => if strEq k key then some v else lookupStr rest key

/-- Modelled from the spec: `util.StringOrPrefixListContains` from the
repository's util package (not in the excerpt) — the needle matches a list
entry exactly or has it as a prefix, as the helper's name states. -/
def strListOrPfxContains (ts : List String) (t : String) : Bool :=
  ts.any (fun v => strEq v t || strHasPfx t v)

/-- Modelled from the spec: `util.ParseIPSet` from the repository's util
package — `*` is the universal set, otherwise a CIDR or a bare address. -/
def ParseIPSet (s : String) : Except Err IPSet :=
  if strEq s "*" then
    .ok ((emptySet.addPfx ⟨false, 0, 0⟩).addPfx ⟨true, 0, 0⟩)
  else
    match parsePfxStr s with
    | some p => .ok (emptySet.addPfx p)
    | none =>
      match parseAddrStr s with
      | some a => .ok (emptySet.addAddr a)
      | none => .error (.parseIPErr s)

/-- Modelled from the spec: `util.NormalizeToFQDNRulesConfigFromViper`;
under the default configuration normalization is the identity and the
inputs considered here are already normalized. -/
def normalizeUser (s : String) : Except Err String := .ok s

/-- `filterNodesByUser` (`acls.go` lines 1111–1120). -/
def filterNodesByUser (nodes : List Node) (user : String) : List Node :=
  nodes.filter (fun node => strEq node.User.Name user)

/-- The validation loop of `expandUsersFromGroup`. -/
def expandUsersLoop : List String → Except Err (List String)
  | [] => .ok []
  | g :: rest =>
    if isGroup g then .error (.invalidGroup "nested group")
    else do
      let grp ← normalizeUser g
      let users ← expandUsersLoop rest
      .ok (grp :: users)

/-- `expandUsersFromGroup` (`acls.go` lines 826–858). -/
def expandUsersFromGroup (pol : ACLPolicy) (group : String) :
    Except Err (List String) :=
  match lookupStr pol.Groups group with
  | none => .error (.invalidGroup group)
  | some aclGroups => expandUsersLoop aclGroups

/-- The owner loop of `expandOwnersFromTag`: groups flatten to users. -/
def expandOwnersLoop (pol : ACLPolicy) : List String → Except Err (List String)
  | [] => .ok []
  | owner :: rest =>
    if isGroup owner then do
      let gs ← expandUsersFromGroup pol owner
      let os ← expandOwnersLoop pol rest
      .ok (gs ++ os)
    else do
      let os ← expandOwnersLoop pol rest
      .ok (owner :: os)

/-- `expandOwnersFromTag` (`acls.go` lines 792–822): the owners of a tag,
or the invalid-tag error when the policy is nil or the tag undeclared. -/
def expandOwnersFromTag (pol : Option ACLPolicy) (tag : String) :
    Except Err (List String) :=
  match pol with
  | none => .error (.invalidTag tag)
  | some p =>
    match lookupStr p.TagOwners tag with
    | none => .error (.invalidTag tag)
    | some ows => expandOwnersLoop p ows

/-- Insert-if-absent, modelling the Go `map[string]bool` key sets whose
keys are later enumerated (the model keeps first-insertion order; the
callers in scope only test emptiness). -/
def insertUnique (l : List String) (s : String) : List String :=
  if l.any (strEq s) then l else l ++ [s]

/-- The classification loop of `TagsOfNode`. -/
def tagsOfNodeLoop (pol : Option ACLPolicy) (userName : String) :
    List String → List String × List String → List String × List String
  | [], acc => acc
  | tag :: rest, (validTags, invalidTags) =>
    match expandOwnersFromTag pol tag with
    | .error (.invalidTag _) =>
      tagsOfNodeLoop pol userName rest (validTags, insertUnique invalidTags tag)
    | .error _ =>
      tagsOfNodeLoop pol userName rest (validTags, insertUnique invalidTags tag)
    | .ok owners =>
      if owners.any (strEq userName) then
        tagsOfNodeLoop pol userName rest (insertUnique validTags tag, invalidTags)
      else
        tagsOfNodeLoop pol userName rest (validTags, insertUnique invalidTags tag)

/-- `TagsOfNode` (`acls.go` lines 1067–1109): the valid and invalid
request-tags of a node.  A tag is valid when the node's user is among its
owners; an undeclared tag (or one whose owner expansion fails, leaving no
owners) is invalid. -/
def TagsOfNode (pol : Option ACLPolicy) (node : Option Node) :
    List String × List String :=
  match node with
  | none => ([], [])
  | some n =>
    match n.Hostinfo with
    | none => ([], [])
    | some hi => tagsOfNodeLoop pol n.User.Name hi.RequestTags ([], [])

/-- `excludeCorrectlyTaggedNodes` (`acls.go` lines 702–740).  Note the
source's tag-collection loop calls `expandOwnersFromTag(aclPolicy, user)`
— passing the *user* where a tag is expected — and then tests whether
`append(owners, user)` contains `user`, which always holds; so `tags`
collects every key of `TagOwners`.  Nodes without host-info are skipped
(never emitted). -/
def excludeCorrectlyTaggedNodes (pol : ACLPolicy) (nodes : List Node)
    (user : String) : List Node :=
  let tags := pol.TagOwners.filterMap (fun tOw =>
    let owners :=
      match expandOwnersFromTag (some pol) user with
      | .ok os => os
      | .error _ => []
    if strListOrPfxContains (owners ++ [user]) user then some tOw.1 else none)
  nodes.filter (fun node =>
    match node.Hostinfo with
    | none => false
    | some hi =>
      !(hi.RequestTags.any (fun t => strListOrPfxContains tags t)) &&
        node.ForcedTags.isEmpty)

/-- `expandIPsFromUser` (`acls.go` lines 929–948): the user's nodes after
the tagged-node exclusion; `none` models Go's `nil, nil` short-circuit on
an empty node list, which makes `ExpandAlias` fall through. -/
def expandIPsFromUser (pol : ACLPolicy) (user : String) (nodes : List Node) :
    Option IPSet :=
  let filteredNodes :=
    excludeCorrectlyTaggedNodes pol (filterNodesByUser nodes user) user
  if filteredNodes.isEmpty then none
  else some (filteredNodes.foldl (fun s n => n.appendToIPSet s) emptySet)

/-- `expandIPsFromGroup` (`acls.go` lines 860–878). -/
def expandIPsFromGroup (pol : ACLPolicy) (group : String) (nodes : List Node) :
    Except Err IPSet := do
  let users ← expandUsersFromGroup pol group
  .ok (users.foldl
    (fun s user =>
      (filterNodesByUser nodes user).foldl (fun s n => n.appendToIPSet s) s)
    emptySet)

/-- `expandIPsFromTag` (`acls.go` lines 880–927): forced-tag carriers, plus
the request-tag carriers whose user owns the tag; the invalid-tag error
only surfaces when no forced tag contributed an address. -/
def expandIPsFromTag (pol : ACLPolicy) (alias_ : String) (nodes : List Node) :
    Except Err IPSet :=
  let build := nodes.foldl
    (fun s node =>
      if strListOrPfxContains node.ForcedTags alias_ then node.appendToIPSet s
      else s)
    emptySet
  match expandOwnersFromTag (some pol) alias_ with
  | .error (.invalidTag _) =>
    if build.pfxs.isEmpty then .error (.invalidTag alias_) else .ok build
  | .error e => .error e
  | .ok owners =>
    .ok (owners.foldl
      (fun s user =>
        (filterNodesByUser nodes user).foldl
          (fun s node =>
            match node.Hostinfo with
            | none => s
            | some hi =>
              if strListOrPfxContains hi.RequestTags alias_ then
                node.appendToIPSet s
              else s)
          s)
      build)

/-- `expandIPsFromSingleIP` (`acls.go` lines 950–966). -/
def expandIPsFromSingleIP (ip : IPAddr) (nodes : List Node) : IPSet :=
  (filterByIP nodes ip).foldl (fun s n => n.appendToIPSet s) (emptySet.addAddr ip)

/-- `expandIPsFromIPPrefix` (`acls.go` lines 968–989): the prefix plus
every node that has an address inside it. -/
def expandIPsFromIPPrefix (p : IPPfx) (nodes : List Node) : IPSet :=
  nodes.foldl
    (fun s node =>
      node.IPs.foldl
        (fun s ip => if p.containsAddr ip then node.appendToIPSet s else s)
        s)
    (emptySet.addPfx p)

/-- `expandAutoGroup` (`acls.go` lines 991–1046).  Recognition is by
*prefix*, in the source's case order; anything else is the
unknown-autogroup error. -/
def expandAutoGroup (pol : ACLPolicy) (alias_ : String) (nodes : List Node) :
    Except Err IPSet :=
  if strHasPfx alias_ autogroupInternet then .ok theInternet
  else if strHasPfx alias_ autogroupSelf then
    .ok (match nodes.getLast? with
      | none => emptySet
      | some currentNode =>
        (nodes.filter (fun n => n.User.ID == currentNode.User.ID)).foldl
          (fun s n => n.appendToIPSet s) emptySet)
  else if strHasPfx alias_ autogroupMember then
    .ok (nodes.foldl
      (fun s node =>
        if !node.ForcedTags.isEmpty then s
        else if !(TagsOfNode (some pol) (some node)).1.isEmpty then s
        else node.appendToIPSet s)
      emptySet)
  else if strHasPfx alias_ autogroupTagged then
    .ok (nodes.foldl
      (fun s node =>
        if !node.ForcedTags.isEmpty then node.appendToIPSet s
        else if !(TagsOfNode (some pol) (some node)).1.isEmpty then
          node.appendToIPSet s
        else s)
      emptySet)
  else if strHasPfx alias_ autogroupDangerAll then .ok allIPs
  else .error (.unknownAutogroup alias_)

/-- `ExpandAlias` (`acls.go` lines 643–697) with explicit resolution depth:
only the named-host branch recurses (a host's value re-enters resolution as
its CIDR text).  Go bounds this recursion by nothing; the model spends one
fuel unit per host hop and reports `outOfFuel` where Go would loop, which
no input with an acyclic host table can reach at the wrapper's depth. -/
def ExpandAliasF (pol : ACLPolicy) : Nat → List Node → String → Except Err IPSet
  | 0, _, _ => .error .outOfFuel
  | fuel + 1, nodes, alias_ =>
    if isWildcard alias_ then ParseIPSet "*"
    else if isGroup alias_ then expandIPsFromGroup pol alias_ nodes
    else if isTag alias_ then expandIPsFromTag pol alias_ nodes
    else if isAutoGroup alias_ then expandAutoGroup pol alias_ nodes
    else
      match expandIPsFromUser pol alias_ nodes with
      | some ips => .ok ips
      | none =>
        match lookupStr pol.Hosts alias_ with
        | some h => ExpandAliasF pol fuel nodes (renderPfx h)
        | none =>
          match parseAddrStr alias_ with
          | some ip => .ok (expandIPsFromSingleIP ip nodes)
          | none =>
            match parsePfxStr alias_ with
            | some p => .ok (expandIPsFromIPPrefix p nodes)
            | none => .ok emptySet

/-- `ExpandAlias`: resolution at a depth that any acyclic host chain fits. -/
def ExpandAlias (pol : ACLPolicy) (nodes : List Node) (alias_ : String) :
    Except Err IPSet :=
  ExpandAliasF pol (pol.Hosts.length + 1) nodes alias_

/-- `expandSource` (`acls.go` lines 617–632): the expanded set rendered as
prefix strings. -/
def expandSource (pol : ACLPolicy) (src : String) (nodes : List Node) :
    Except Err (List String) :=
  match ExpandAlias pol nodes src with
  | .error e => .error e
  | .ok ipSet => .ok (ipSet.pfxs.map renderPfx)

/-! ## Filter-rule compilation

Go iterates `for index := 0; index < len(acls); index++` over a slice that
the `autogroup:self` split appends to, so rules are processed in FIFO
order: the model's loop processes the head of the pending list and enqueues
synthesized rules at the back.  The loop is bounded by the weight of the
pending list (one unit per rule plus one per `autogroup:member`-prefixed
source); each step consumes one unit of fuel while the split appends at
most one weight-one rule per member-prefixed source, so the initial weight
bounds the number of steps and the `outOfFuel` branch is unreachable from
the wrapper. -/

/-- The guard of the `autogroup:self` destination check: exactly one source
and it is `autogroup:self` or `autogroup:member` (`acls.go` line 256). -/
def allowedSelfSrc (sources : List String) : Bool :=
  match sources with
  | [s0] => strEq s0 autogroupSelf || strEq s0 autogroupMember
  | _ => false

/-- The source loop of `CompileFilterRules` (`acls.go` lines 205–241): per
source, the `autogroup:self` split (rewriting the source, trimming the
destination list and synthesizing a rule as the partition dictates), then
source expansion.  Returns the expanded source strings, the final
destination list and the synthesized rules. -/
def processSources (pol : ACLPolicy) (nodes : List Node) (action : String)
    (aclIndex : Nat) :
    Nat → List String → List String →
      Except Err (List String × List String × List ACL)
  | _, [], dests => .ok ([], dests, [])
  | srcIndex, src :: rest, dests =>
    let step : String × List String × List ACL :=
      if strHasPfx src autogroupMember then
        let newDst := dests.filter (fun d => strHasPfx d autogroupSelf)
        let oldDst := dests.filter (fun d => !strHasPfx d autogroupSelf)
        if oldDst.isEmpty then (autogroupSelf, dests, [])
        else if !newDst.isEmpty then
          (src, oldDst, [⟨action, "", [autogroupSelf], newDst⟩])
        else (src, dests, [])
      else (src, dests, [])
    match expandSource pol step.1 nodes with
    | .error e => .error (.aclSrcErr aclIndex srcIndex e)
    | .ok srcs =>
      match processSources pol nodes action aclIndex (srcIndex + 1) rest
          step.2.1 with
      | .error e => .error e
      | .ok (ips, destsF, appR) => .ok (srcs ++ ips, destsF, step.2.2 ++ appR)

/-- The destination loop of `CompileFilterRules` (`acls.go` lines 249–285):
per destination, split alias and port, enforce the `autogroup:self`
prerequisite against the rule's original sources, expand the alias and the
ports, and emit the prefix × port-range cross product. -/
def processDests (pol : ACLPolicy) (nodes : List Node) (aclSources : List String)
    (isWild : Bool) : List String → Except Err (List NetPortRange)
  | [] => .ok []
  | dest :: rest =>
    match parseDestination dest with
    | .error e => .error e
    | .ok (alias_, port) =>
      if strHasPfx alias_ autogroupSelf && !allowedSelfSrc aclSources then
        .error .autogroupSelf
      else
        match ExpandAlias pol nodes alias_ with
        | .error e => .error e
        | .ok expanded =>
          match expandPorts port isWild with
          | .error e => .error e
          | .ok ports =>
            let dests :=
              expanded.pfxs.flatMap
                (fun pfx => ports.map (fun pr => NetPortRange.mk (renderPfx pfx) pr))
            match processDests pol nodes aclSources isWild rest with
            | .error e => .error e
            | .ok more => .ok (dests ++ more)

/-- Loop weight of an access rule: one, plus one per source the
`autogroup:self` split can fire on. -/
def aclWeight (acl : ACL) : Nat :=
  (acl.Sources.countP (fun s => strHasPfx s autogroupMember)) + 1

/-- Total loop weight of a pending rule list. -/
def aclsWeight (acls : List ACL) : Nat := (acls.map aclWeight).sum

/-- The rule loop of `CompileFilterRules` (`acls.go` lines 196–292) in FIFO
form, fuelled by the pending list's weight. -/
def filterLoopF (pol : ACLPolicy) (nodes : List Node) :
    Nat → Nat → List ACL → Except Err (List FilterRule)
  | _, _, [] => .ok []
  | 0, _, _ :: _ => .error .outOfFuel
  | fuel + 1, index, acl :: rest =>
    if !strEq acl.Action "accept" then .error .invalidAction
    else
      match processSources pol nodes acl.Action index 0 acl.Sources
          acl.Destinations with
      | .error e => .error e
      | .ok (srcIPs, dests, appended) =>
        match parseProtocol acl.Protocol with
        | .error e => .error (.protoErr e)
        | .ok (protocols, isWild) =>
          match processDests pol nodes acl.Sources isWild dests with
          | .error e => .error e
          | .ok destPorts =>
            match filterLoopF pol nodes fuel (index + 1) (rest ++ appended) with
            | .error e => .error e
            | .ok rules => .ok (⟨srcIPs, destPorts, protocols⟩ :: rules)

/-- `CompileFilterRules` (`acls.go` lines 186–295): a nil policy compiles
to the allow-all list; otherwise the rule loop runs over the policy's
access rules. -/
def CompileFilterRules (pol : Option ACLPolicy) (nodes : List Node) :
    Except Err (List FilterRule) :=
  match pol with
  | none => .ok FilterAllowAll
  | some p => filterLoopF p nodes (aclsWeight p.ACLs) 0 p.ACLs

/-! ## Per-node reduction -/

/-- The keep test of `ReduceFilterRules`'s destination loop (`acls.go`
lines 305–331): a destination survives when its IP text parses and the set
contains one of the node's addresses or overlaps a route it advertises;
unparseable destinations are dropped (fail closed). -/
def reduceKeep (node : Node) (dest : NetPortRange) : Bool :=
  match ParseIPSet dest.IP with
  | .error _ => false
  | .ok expanded =>
    if node.inIPSet expanded then true
    else
      match node.Hostinfo with
      | some hi => hi.RoutableIPs.any (fun r => expanded.overlapsPfx r)
      | none => false

/-- `ReduceFilterRules` (`acls.go` lines 299–343): keep each rule's
surviving destinations; drop rules left without any. -/
def ReduceFilterRules (node : Node) : List FilterRule → List FilterRule
  | [] => []
  | rule :: rest =>
    let dests := rule.DstPorts.filter (reduceKeep node)
    if 0 < dests.length then
      ⟨rule.SrcIPs, dests, rule.IPProto⟩ :: ReduceFilterRules node rest
    else ReduceFilterRules node rest

/-! ## SSH-rule compilation -/

/-- The accept action literal (`acls.go` lines 355–363). -/
def acceptAction : SSHActionT := ⟨"", false, true, 0, false, "", true⟩

/-- The reject action literal (`acls.go` lines 365–373). -/
def rejectAction : SSHActionT := ⟨"", true, false, 0, false, "", false⟩

/-- Modelled from the spec: Go's `time.ParseDuration` restricted to the
spec's "human duration such as `12h`" — an integer with an `h`, `m` or `s`
unit, in nanoseconds. -/
def parseDuration (s : String) : Except Err Int :=
  match s.data.getLast? with
  | none => .error (.durationErr s)
  | some u =>
    match parseDec (s.data.take (s.data.length - 1)) with
    | none => .error (.durationErr s)
    | some n =>
      if u == 'h' then .ok (n * 3600 * 1000000000)
      else if u == 'm' then .ok (n * 60 * 1000000000)
      else if u == 's' then .ok (n * 1000000000)
      else .error (.durationErr s)

/-- `sshCheckAction` (`acls.go` lines 499–514). -/
def sshCheckAction (duration : String) : Except Err SSHActionT :=
  match parseDuration duration with
  | .error e => .error e
  | .ok sessionLength => .ok ⟨"", false, true, sessionLength, false, "", true⟩

/-- The address of a prefix, as `expandedSrc.Addr().String()` renders it. -/
def pfxAddrStr (p : IPPfx) : String :=
  renderAddr (if p.isV6 then .v6 p.addr else .v4 p.addr)

/-- The destination loop of `CompileSSHPolicy` (`acls.go` lines 380–397):
union the expanded destinations, enforcing the `autogroup:self`
prerequisite against the rule's sources. -/
def processSSHDests (pol : ACLPolicy) (nodesAll : List Node)
    (sources : List String) : IPSet → List String → Except Err IPSet
  | acc, [] => .ok acc
  | acc, src :: rest =>
    if strHasPfx src autogroupSelf && !allowedSelfSrc sources then
      .error .autogroupSelf
    else
      match ExpandAlias pol nodesAll src with
      | .error e => .error e
      | .ok expanded => processSSHDests pol nodesAll sources (acc.addSet expanded) rest

/-- The principal loop of `CompileSSHPolicy` (`acls.go` lines 419–481):
wildcard and group sources become any/user-login principals; other sources
run the `autogroup:self` split (synthesizing an SSH rule on a mixed
partition) and expand — against the peers only — to node-IP principals. -/
def processSSHSrcs (pol : ACLPolicy) (peers : List Node) (sshACL : SSH)
    (index : Nat) :
    Nat → List String → List String →
      Except Err (List SSHPrincipal × List String × List SSH)
  | _, [], dests => .ok ([], dests, [])
  | innerIndex, rawSrc :: rest, dests =>
    if isWildcard rawSrc then
      match processSSHSrcs pol peers sshACL index (innerIndex + 1) rest dests with
      | .error e => .error e
      | .ok (ps, destsF, appR) => .ok (⟨true, "", ""⟩ :: ps, destsF, appR)
    else if isGroup rawSrc then
      match expandUsersFromGroup pol rawSrc with
      | .error e => .error (.sshGroupErr index innerIndex e)
      | .ok users =>
        match processSSHSrcs pol peers sshACL index (innerIndex + 1) rest dests with
        | .error e => .error e
        | .ok (ps, destsF, appR) =>
          .ok (users.map (fun u => SSHPrincipal.mk false u "") ++ ps, destsF, appR)
    else
      let step : String × List String × List SSH :=
        if strHasPfx rawSrc autogroupMember then
          let newDst := dests.filter (fun d => strHasPfx d autogroupSelf)
          let oldDst := dests.filter (fun d => !strHasPfx d autogroupSelf)
          if oldDst.isEmpty then (autogroupSelf, dests, [])
          else if !newDst.isEmpty then
            (rawSrc, oldDst,
              [⟨sshACL.Action, sshACL.CheckPeriod, [autogroupSelf], newDst,
                sshACL.Users⟩])
          else (rawSrc, dests, [])
        else (rawSrc, dests, [])
      match ExpandAlias pol peers step.1 with
      | .error e => .error (.sshAliasErr index innerIndex e)
      | .ok expandedSrcs =>
        match processSSHSrcs pol peers sshACL index (innerIndex + 1) rest
            step.2.1 with
        | .error e => .error e
        | .ok (ps, destsF, appR) =>
          .ok (expandedSrcs.pfxs.map (fun p => SSHPrincipal.mk false "" (pfxAddrStr p))
                ++ ps,
              destsF, step.2.2 ++ appR)

/-- Loop weight of an SSH rule, as `aclWeight`. -/
def sshWeight (r : SSH) : Nat :=
  (r.Sources.countP (fun s => strHasPfx s autogroupMember)) + 1

/-- Total loop weight of a pending SSH rule list. -/
def sshsWeight (rules : List SSH) : Nat := (rules.map sshWeight).sum

/-- The rule loop of `CompileSSHPolicy` (`acls.go` lines 376–492) in FIFO
form: expand destinations, skip rules whose destination set misses the
recipient, map the action (`accept`, `check`, otherwise an unknown-action
error), then build principals and the users map. -/
def sshLoopF (pol : ACLPolicy) (node : Node) (peers : List Node) :
    Nat → Nat → List SSH → Except Err (List SSHRule)
  | _, _, [] => .ok []
  | 0, _, _ :: _ => .error .outOfFuel
  | fuel + 1, index, sshACL :: rest =>
    match processSSHDests pol (peers ++ [node]) sshACL.Sources emptySet
        sshACL.Destinations with
    | .error e => .error e
    | .ok destSet =>
      if !node.inIPSet destSet then sshLoopF pol node peers fuel (index + 1) rest
      else
        let actionE : Except Err SSHActionT :=
          if strEq sshACL.Action "accept" then .ok acceptAction
          else if strEq sshACL.Action "check" then
            match sshCheckAction sshACL.CheckPeriod with
            | .error e => .error (.sshCheckErr index e)
            | .ok a => .ok a
          else .error (.sshUnknownAction sshACL.Action index)
        match actionE with
        | .error e => .error e
        | .ok action =>
          match processSSHSrcs pol peers sshACL index 0 sshACL.Sources
              sshACL.Destinations with
          | .error e => .error e
          | .ok (principals, _, appended) =>
            match sshLoopF pol node peers fuel (index + 1) (rest ++ appended) with
            | .error e => .error e
            | .ok rules =>
              .ok (⟨principals, sshACL.Users.map (fun u => (u, "=")), action⟩ :: rules)

/-- `CompileSSHPolicy` (`acls.go` lines 345–497): nil policy yields no
policy; otherwise the rule loop runs over the policy's SSH rules. -/
def CompileSSHPolicy (pol : Option ACLPolicy) (node : Node) (peers : List Node) :
    Except Err (Option SSHPolicy) :=
  match pol with
  | none => .ok none
  | some p =>
    match sshLoopF p node peers (sshsWeight p.SSHs) 0 p.SSHs with
    | .error e => .error e
    | .ok rules => .ok (some ⟨rules⟩)

/-! ## Verification of the specified properties -/

deriving instance DecidableEq for Except

/-- C9.  For every fleet, compiling from an absent policy yields exactly the
allow-all filter rule list. -/
theorem c9_compile_nil_allows_all (nodes : List Node) :
    CompileFilterRules none nodes = .ok FilterAllowAll := rfl

/-- C10.  A two-bound port specification is accepted even when inverted
(`N > M`): `expandPorts` emits `{First := N, Last := M}` without any
well-ordering check. -/
theorem c10_inverted_range_accepted (s : String) (a b : List Char) (n m : Nat)
    (hsplit1 : splitOnChar ',' s.data = [s.data])
    (hsplit2 : splitOnChar '-' s.data = [a, b])
    (hn : parseUint16 a = some n) (hm : parseUint16 b = some m)
    (_hinv : m < n) :
    expandPorts s false = .ok [⟨n, m⟩] := by
  have hw : isWildcard s = false := by
    cases hb : isWildcard s with
    | false => rfl
    | true =>
      exfalso
      have hdata : s.data = "*".data := by
        have := eq_of_beq (a := s.data) (b := "*".data) hb
        exact this
      rw [hdata] at hsplit2
      simp [splitOnChar] at hsplit2
  rw [expandPorts, hw]
  simp only [Bool.false_eq_true, if_false, hsplit1, expandPortsList,
    expandPortPiece, hsplit2, hn, hm]
  rfl

/-- C10 witness: `443-80` is accepted as the inverted range `{443, 80}`. -/
theorem c10_inverted_range_witness :
    expandPorts "443-80" false = .ok [⟨443, 80⟩] :=
  c10_inverted_range_accepted "443-80" "443".data "80".data 443 80
    (by decide) (by decide) (by decide) (by decide) (by decide)

/-- C8.  The per-node reducer is idempotent: reducing an already reduced
rule list changes nothing, because a destination's survival depends only on
the node and the destination itself. -/
theorem c8_reduce_idempotent (node : Node) (rules : List FilterRule) :
    ReduceFilterRules node (ReduceFilterRules node rules) =
      ReduceFilterRules node rules := by
  induction rules with
  | nil => rfl
  | cons r rest ih =>
    rw [ReduceFilterRules]
    by_cases h : 0 < (r.DstPorts.filter (reduceKeep node)).length
    · rw [if_pos h]
      rw [ReduceFilterRules]
      have hff : (r.DstPorts.filter (reduceKeep node)).filter (reduceKeep node) =
          r.DstPorts.filter (reduceKeep node) := by
        rw [List.filter_filter]
        apply List.filter_congr
        intro x _
        exact Bool.and_self _
      simp only [hff]
      rw [if_pos h, ih]
    · rw [if_neg h]
      exact ih

/-- C4.  Evaluation at the failing input: user `userA` owns node `nA`,
whose only request-tag `tag:web` is declared in `TagOwners` but owned by
`userB`; the spec says an invalidly tagged node stays with its user, yet
the code's tag-collection loop (which tests a condition that always holds)
excludes every node carrying any declared tag, so the user expands to no
addresses at all. -/
theorem c4_invalid_tag_node_excluded :
    expandIPsFromUser ⟨[], [], [("tag:web", ["userB"])], [], []⟩ "userA"
        [⟨1, ⟨1, "userA"⟩, [.v4 (100 * 2 ^ 24 + 64 * 2 ^ 16 + 1)],
          some ⟨["tag:web"], []⟩, []⟩] = none ∧
      ExpandAlias ⟨[], [], [("tag:web", ["userB"])], [], []⟩
        [⟨1, ⟨1, "userA"⟩, [.v4 (100 * 2 ^ 24 + 64 * 2 ^ 16 + 1)],
          some ⟨["tag:web"], []⟩, []⟩] "userA" = .ok emptySet := by
  exact ⟨by decide, by decide⟩

/-- The eight carve-outs named for `autogroup:internet`: RFC1918, ULA,
mesh CGNAT, mesh ULA, and both link-local ranges. -/
def inC1CarveOuts (a : IPAddr) : Bool :=
  (IPPfx.mk false (10 * 2 ^ 24) 8).containsAddr a ||
    (IPPfx.mk false (172 * 2 ^ 24 + 16 * 2 ^ 16) 12).containsAddr a ||
    (IPPfx.mk false (192 * 2 ^ 24 + 168 * 2 ^ 16) 16).containsAddr a ||
    (IPPfx.mk true (0xfc00 * 2 ^ 112) 7).containsAddr a ||
    (IPPfx.mk false (100 * 2 ^ 24 + 64 * 2 ^ 16) 10).containsAddr a ||
    (IPPfx.mk true (0xfd7a115ca1e0 * 2 ^ 80) 48).containsAddr a ||
    (IPPfx.mk true (0xfe80 * 2 ^ 112) 10).containsAddr a ||
    (IPPfx.mk false (169 * 2 ^ 24 + 254 * 2 ^ 16) 16).containsAddr a

/-- C1 counterexample: `::1` lies in none of the carve-outs, yet
`theInternet` does not contain it — the IPv6 side of the set is `2000::/3`,
not the whole IPv6 universe, so "in the set iff in no carve-out" fails. -/
theorem c1_loopback_not_in_internet :
    theInternet.containsAddr (.v6 1) = false ∧ inC1CarveOuts (.v6 1) = false := by
  exact ⟨by decide, by decide⟩

/-- C2 counterexample: an SSH rule whose action is the empty string and
whose destination set contains the recipient makes `CompileSSHPolicy`
return the unknown-action error instead of succeeding with a reject rule. -/
theorem c2_unset_action_errors :
    CompileSSHPolicy
        (some ⟨[], [], [], [], [⟨"", "", ["*"], ["*"], ["ubuntu"]⟩]⟩)
        ⟨1, ⟨1, "userA"⟩, [.v4 (100 * 2 ^ 24 + 64 * 2 ^ 16 + 1)],
          some ⟨[], []⟩, []⟩ [] =
      .error (.sshUnknownAction "" 0) := by
  decide

/-- C5 counterexample: a rule with destinations containing
`autogroup:self:22` and sources `["autogroup:member", "x"]` — not exactly
one `autogroup:member`/`autogroup:self` source — compiles successfully:
the member-source split moves the self destination onto a synthesized rule
whose single `autogroup:self` source passes the guard, so no
autogroup-self-misuse error is raised. -/
theorem c5_mixed_split_bypasses_guard :
    CompileFilterRules
        (some ⟨[], [], [],
          [⟨"accept", "", ["autogroup:member", "x"],
            ["autogroup:self:22", "10.0.0.0/8:80"]⟩], []⟩)
        [⟨1, ⟨1, "userA"⟩, [.v4 (100 * 2 ^ 24 + 64 * 2 ^ 16 + 1)],
          some ⟨[], []⟩, []⟩] =
      .ok [⟨["100.64.0.1/32"], [⟨"10.0.0.0/8", ⟨80, 80⟩⟩], []⟩,
        ⟨["100.64.0.1/32"], [⟨"100.64.0.1/32", ⟨22, 22⟩⟩], []⟩] := by
  decide

/-- C6 counterexample: a rule with protocol `icmp` (which requires wildcard
ports) and the non-wildcard-port destination `autogroup:self:22` compiles
successfully: the split moves that destination onto a synthesized rule
whose protocol field is freshly zeroed, so no wildcard-required error is
raised. -/
theorem c6_split_drops_protocol :
    CompileFilterRules
        (some ⟨[], [], [],
          [⟨"accept", "icmp", ["autogroup:member"],
            ["autogroup:self:22", "8.8.8.8/32:*"]⟩], []⟩)
        [⟨1, ⟨1, "userA"⟩, [.v4 (100 * 2 ^ 24 + 64 * 2 ^ 16 + 1)],
          some ⟨[], []⟩, []⟩] =
      .ok [⟨["100.64.0.1/32"], [⟨"8.8.8.8/32", ⟨0, 65535⟩⟩], [1, 58]⟩,
        ⟨["100.64.0.1/32"], [⟨"100.64.0.1/32", ⟨22, 22⟩⟩], []⟩] := by
  decide

/-- C7 counterexample: `autogroup:memberz` is not one of the recognized
autogroup names, yet expansion succeeds (with the member set — empty on an
empty fleet) because recognition is by prefix, not by name. -/
theorem c7_unrecognized_name_accepted :
    ExpandAlias ⟨[], [], [], [], []⟩ [] "autogroup:memberz" = .ok emptySet := by
  decide

/-- C7 amended.  Expansion of an `autogroup:` alias fails with the
unknown-autogroup error exactly when the text after `autogroup:` extends
none of the five recognized names — recognition is by prefix, so
`autogroup:nonroot` and other unrecognized names error, while any extension
of a recognized name (e.g. `autogroup:memberz`) is accepted as that
autogroup. -/
theorem c7_amended_unknown_autogroup_errors (pol : ACLPolicy) (nodes : List Node)
    (t : List Char)
    (h1 : isPfxOf "internet".data t = false)
    (h2 : isPfxOf "self".data t = false)
    (h3 : isPfxOf "member".data t = false)
    (h4 : isPfxOf "tagged".data t = false)
    (h5 : isPfxOf "danger-all".data t = false) :
    ExpandAlias pol nodes ⟨"autogroup:".data ++ t⟩ =
      .error (.unknownAutogroup ⟨"autogroup:".data ++ t⟩) := by
  have hw : isWildcard ⟨"autogroup:".data ++ t⟩ = false := rfl
  have hg : isGroup ⟨"autogroup:".data ++ t⟩ = false := rfl
  have ht : isTag ⟨"autogroup:".data ++ t⟩ = false := rfl
  have hag : isAutoGroup ⟨"autogroup:".data ++ t⟩ = true := rfl
  have hi : strHasPfx ⟨"autogroup:".data ++ t⟩ autogroupInternet =
      isPfxOf "internet".data t := rfl
  have hs : strHasPfx ⟨"autogroup:".data ++ t⟩ autogroupSelf =
      isPfxOf "self".data t := rfl
  have hm : strHasPfx ⟨"autogroup:".data ++ t⟩ autogroupMember =
      isPfxOf "member".data t := rfl
  have htg : strHasPfx ⟨"autogroup:".data ++ t⟩ autogroupTagged =
      isPfxOf "tagged".data t := rfl
  have hd : strHasPfx ⟨"autogroup:".data ++ t⟩ autogroupDangerAll =
      isPfxOf "danger-all".data t := rfl
  unfold ExpandAlias
  simp only [ExpandAliasF, hw, hg, ht, hag, Bool.false_eq_true, if_false, if_true]
  simp only [expandAutoGroup, hi, h1, hs, h2, hm, h3, htg, h4, hd, h5,
    Bool.false_eq_true, if_false]

/-- C7 witness: `autogroup:nonroot` errors as unknown. -/
theorem c7_witness_nonroot_errors :
    ExpandAlias ⟨[], [], [], [], []⟩ [] "autogroup:nonroot" =
      .error (.unknownAutogroup "autogroup:nonroot") :=
  c7_amended_unknown_autogroup_errors ⟨[], [], [], [], []⟩ [] "nonroot".data
    rfl rfl rfl rfl rfl

/-- A pending SSH rule list has positive loop weight. -/
theorem sshsWeight_pos (r : SSH) (rest : List SSH) : 0 < sshsWeight (r :: rest) := by
  simp only [sshsWeight, List.map_cons, List.sum_cons, sshWeight]
  omega

/-- With fuel available, a head SSH rule whose destination set contains the
recipient and whose action is neither `accept` nor `check` stops the loop
with the unknown-action error. -/
theorem sshLoop_unknown_action (pol : ACLPolicy) (node : Node) (peers : List Node)
    (r : SSH) (rest : List SSH) (destSet : IPSet) (fuel idx : Nat)
    (hdest : processSSHDests pol (peers ++ [node]) r.Sources emptySet
      r.Destinations = .ok destSet)
    (hin : node.inIPSet destSet = true)
    (hacc : strEq r.Action "accept" = false)
    (hchk : strEq r.Action "check" = false) :
    sshLoopF pol node peers (fuel + 1) idx (r :: rest) =
      .error (.sshUnknownAction r.Action idx) := by
  simp only [sshLoopF, hdest, hin, hacc, hchk, Bool.not_true, Bool.false_eq_true,
    if_false]

/-- C2 amended.  An SSH rule (here in first position) whose recipient node
is in the destination set and whose action string is neither `accept` nor
`check` — including the empty/unset string — makes `CompileSSHPolicy`
*fail* with the unknown-action error; the initialized reject default is
unreachable, so no reject rule is ever synthesized for such actions. -/
theorem c2_amended_unknown_action_fails (pol : ACLPolicy) (node : Node)
    (peers : List Node) (r : SSH) (rest : List SSH) (destSet : IPSet)
    (hp : pol.SSHs = r :: rest)
    (hdest : processSSHDests pol (peers ++ [node]) r.Sources emptySet
      r.Destinations = .ok destSet)
    (hin : node.inIPSet destSet = true)
    (hacc : strEq r.Action "accept" = false)
    (hchk : strEq r.Action "check" = false) :
    CompileSSHPolicy (some pol) node peers =
      .error (.sshUnknownAction r.Action 0) := by
  have hpos : 0 < sshsWeight (r :: rest) := sshsWeight_pos r rest
  obtain ⟨f, hf⟩ : ∃ f, sshsWeight (r :: rest) = f + 1 :=
    ⟨sshsWeight (r :: rest) - 1, by omega⟩
  simp only [CompileSSHPolicy, hp, hf]
  rw [sshLoop_unknown_action pol node peers r rest destSet f 0 hdest hin hacc hchk]

/-- C2 witness: a one-rule policy with action `deny`, wildcard destination
containing the recipient — compilation fails with the unknown-action
error. -/
theorem c2_witness_deny_action :
    CompileSSHPolicy
        (some ⟨[], [], [], [], [⟨"deny", "", ["*"], ["*"], ["root"]⟩]⟩)
        ⟨7, ⟨3, "userC"⟩, [.v4 (100 * 2 ^ 24 + 64 * 2 ^ 16 + 7)],
          some ⟨[], []⟩, []⟩ [] =
      .error (.sshUnknownAction "deny" 0) :=
  c2_amended_unknown_action_fails
    ⟨[], [], [], [], [⟨"deny", "", ["*"], ["*"], ["root"]⟩]⟩
    ⟨7, ⟨3, "userC"⟩, [.v4 (100 * 2 ^ 24 + 64 * 2 ^ 16 + 7)], some ⟨[], []⟩, []⟩
    [] ⟨"deny", "", ["*"], ["*"], ["root"]⟩ []
    ⟨[⟨0, 4294967295⟩], [⟨0, 340282366920938463463374607431768211455⟩]⟩
    rfl (by decide) (by decide) (by decide) (by decide)

/-- A pending access rule list has positive loop weight. -/
theorem aclsWeight_pos (acl : ACL) (rest : List ACL) : 0 < aclsWeight (acl :: rest) := by
  simp only [aclsWeight, List.map_cons, List.sum_cons, aclWeight]
  omega

/-- With fuel available, a head rule that retains (post-split) a
destination whose alias is `autogroup:self`-prefixed while the rule's
sources fail the one-member-or-self guard stops the loop with the
autogroup-self-misuse error. -/
theorem filterLoop_self_guard_err (pol : ACLPolicy) (nodes : List Node)
    (acl : ACL) (rest : List ACL) (srcIPs : List String) (d : String)
    (ds : List String) (app : List ACL) (alias_ port : String)
    (protos : List Int) (wild : Bool) (fuel idx : Nat)
    (hact : strEq acl.Action "accept" = true)
    (hsrc : processSources pol nodes acl.Action idx 0 acl.Sources
      acl.Destinations = .ok (srcIPs, d :: ds, app))
    (hproto : parseProtocol acl.Protocol = .ok (protos, wild))
    (hd : parseDestination d = .ok (alias_, port))
    (hself : strHasPfx alias_ autogroupSelf = true)
    (hbad : allowedSelfSrc acl.Sources = false) :
    filterLoopF pol nodes (fuel + 1) idx (acl :: rest) = .error .autogroupSelf := by
  simp only [filterLoopF, hact, Bool.not_true, Bool.false_eq_true, if_false,
    hsrc, hproto, processDests, hd, hself, hbad, Bool.not_false, Bool.and_true,
    if_true]

/-- C5 amended.  The autogroup-self-misuse error fires for a rule (here in
first position) whose post-split destination list still carries an
`autogroup:self`-prefixed destination while the sources are not exactly one
`autogroup:member`/`autogroup:self` — in particular whenever no source is
`autogroup:member`-prefixed, since then the split leaves the destinations
untouched.  (When a member-prefixed source and a mixed destination list
meet, the self destinations migrate to a synthesized compliant rule and no
misuse error is raised — see the counterexample.) -/
theorem c5_amended_self_guard (pol : ACLPolicy) (nodes : List Node)
    (acl : ACL) (rest : List ACL) (srcIPs : List String) (d : String)
    (ds : List String) (app : List ACL) (alias_ port : String)
    (protos : List Int) (wild : Bool)
    (hp : pol.ACLs = acl :: rest)
    (hact : strEq acl.Action "accept" = true)
    (hsrc : processSources pol nodes acl.Action 0 0 acl.Sources
      acl.Destinations = .ok (srcIPs, d :: ds, app))
    (hproto : parseProtocol acl.Protocol = .ok (protos, wild))
    (hd : parseDestination d = .ok (alias_, port))
    (hself : strHasPfx alias_ autogroupSelf = true)
    (hbad : allowedSelfSrc acl.Sources = false) :
    CompileFilterRules (some pol) nodes = .error .autogroupSelf := by
  have hpos : 0 < aclsWeight (acl :: rest) := aclsWeight_pos acl rest
  obtain ⟨f, hf⟩ : ∃ f, aclsWeight (acl :: rest) = f + 1 :=
    ⟨aclsWeight (acl :: rest) - 1, by omega⟩
  simp only [CompileFilterRules, hp, hf]
  exact filterLoop_self_guard_err pol nodes acl rest srcIPs d ds app alias_
    port protos wild f 0 hact hsrc hproto hd hself hbad

/-- C5 witness: sources `["a", "b"]` with destination `autogroup:self:22`
(no member-prefixed source, so the split leaves it in place) fail with the
misuse error. -/
theorem c5_witness_two_sources :
    CompileFilterRules
        (some ⟨[], [], [], [⟨"accept", "", ["a", "b"], ["autogroup:self:22"]⟩], []⟩)
        [] = .error .autogroupSelf :=
  c5_amended_self_guard
    ⟨[], [], [], [⟨"accept", "", ["a", "b"], ["autogroup:self:22"]⟩], []⟩ []
    ⟨"accept", "", ["a", "b"], ["autogroup:self:22"]⟩ [] [] "autogroup:self:22"
    [] [] "autogroup:self" "22" [] false
    rfl (by decide) (by decide) (by decide) (by decide) (by decide) (by decide)

/-- With fuel available, a head rule whose protocol requires wildcard ports
and that retains (post-split) a destination with a non-wildcard port spec
on a non-self alias stops the loop with the wildcard-required error. -/
theorem filterLoop_wildcard_err (pol : ACLPolicy) (nodes : List Node)
    (acl : ACL) (rest : List ACL) (srcIPs : List String) (d : String)
    (ds : List String) (app : List ACL) (alias_ port : String)
    (protos : List Int) (expanded : IPSet) (fuel idx : Nat)
    (hact : strEq acl.Action "accept" = true)
    (hsrc : processSources pol nodes acl.Action idx 0 acl.Sources
      acl.Destinations = .ok (srcIPs, d :: ds, app))
    (hproto : parseProtocol acl.Protocol = .ok (protos, true))
    (hd : parseDestination d = .ok (alias_, port))
    (hnotself : strHasPfx alias_ autogroupSelf = false)
    (hexp : ExpandAlias pol nodes alias_ = .ok expanded)
    (hport : isWildcard port = false) :
    filterLoopF pol nodes (fuel + 1) idx (acl :: rest) = .error .wildcardNeeded := by
  simp only [filterLoopF, hact, Bool.not_true, Bool.false_eq_true, if_false,
    hsrc, hproto, processDests, hd, hnotself, Bool.false_and, hexp,
    expandPorts, hport, if_true]

/-- C6 amended.  The wildcard-required error fires for a rule (here in
first position) whose protocol parses with the requires-wildcard flag and
whose post-split destination list retains a destination with a
non-wildcard port; when instead the only offending destinations are
`autogroup:self`-flavored and a member-prefixed source plus a non-self
destination trigger the split, they migrate to a synthesized rule whose
protocol field is reset to empty and no error is raised — see the
counterexample. -/
theorem c6_amended_wildcard_required (pol : ACLPolicy) (nodes : List Node)
    (acl : ACL) (rest : List ACL) (srcIPs : List String) (d : String)
    (ds : List String) (app : List ACL) (alias_ port : String)
    (protos : List Int) (expanded : IPSet)
    (hp : pol.ACLs = acl :: rest)
    (hact : strEq acl.Action "accept" = true)
    (hsrc : processSources pol nodes acl.Action 0 0 acl.Sources
      acl.Destinations = .ok (srcIPs, d :: ds, app))
    (hproto : parseProtocol acl.Protocol = .ok (protos, true))
    (hd : parseDestination d = .ok (alias_, port))
    (hnotself : strHasPfx alias_ autogroupSelf = false)
    (hexp : ExpandAlias pol nodes alias_ = .ok expanded)
    (hport : isWildcard port = false) :
    CompileFilterRules (some pol) nodes = .error .wildcardNeeded := by
  have hpos : 0 < aclsWeight (acl :: rest) := aclsWeight_pos acl rest
  obtain ⟨f, hf⟩ : ∃ f, aclsWeight (acl :: rest) = f + 1 :=
    ⟨aclsWeight (acl :: rest) - 1, by omega⟩
  simp only [CompileFilterRules, hp, hf]
  exact filterLoop_wildcard_err pol nodes acl rest srcIPs d ds app alias_
    port protos expanded f 0 hact hsrc hproto hd hnotself hexp hport

/-- C6 witness: protocol `icmp` with destination `*:22` fails with the
wildcard-required error (spec scenario 2). -/
theorem c6_witness_icmp_port :
    CompileFilterRules
        (some ⟨[], [], [], [⟨"accept", "icmp", ["a"], ["*:22"]⟩], []⟩) [] =
      .error .wildcardNeeded :=
  c6_amended_wildcard_required
    ⟨[], [], [], [⟨"accept", "icmp", ["a"], ["*:22"]⟩], []⟩ []
    ⟨"accept", "icmp", ["a"], ["*:22"]⟩ [] [] "*:22" [] [] "*" "22" [1, 58]
    ⟨[⟨0, 4294967295⟩], [⟨0, 340282366920938463463374607431768211455⟩]⟩
    rfl (by decide) (by decide) (by decide) (by decide) (by decide)
    (by decide) (by decide)

/-- With two units of fuel, a single pending rule with one
`autogroup:member`-prefixed source and a mixed destination partition
compiles to exactly two rules: the original restricted to the non-self
destinations, then the synthesized `autogroup:self` rule over the
self-flavored destinations, itself compiled by the same loop. -/
theorem filterLoop_split_two (pol : ACLPolicy) (nodes : List Node) (acl : ACL)
    (s : String) (srcs1 srcs2 : List String) (protos : List Int) (wild : Bool)
    (dp1 dp2 : List NetPortRange) (fuel idx : Nat)
    (hact : strEq acl.Action "accept" = true)
    (hsrcs : acl.Sources = [s])
    (hmem : strHasPfx s autogroupMember = true)
    (hold : (acl.Destinations.filter
      (fun d => !strHasPfx d autogroupSelf)).isEmpty = false)
    (hnew : (acl.Destinations.filter
      (fun d => strHasPfx d autogroupSelf)).isEmpty = false)
    (hs1 : expandSource pol s nodes = .ok srcs1)
    (hproto : parseProtocol acl.Protocol = .ok (protos, wild))
    (hdp1 : processDests pol nodes [s] wild
      (acl.Destinations.filter (fun d => !strHasPfx d autogroupSelf)) = .ok dp1)
    (hs2 : expandSource pol autogroupSelf nodes = .ok srcs2)
    (hdp2 : processDests pol nodes [autogroupSelf] false
      (acl.Destinations.filter (fun d => strHasPfx d autogroupSelf)) = .ok dp2) :
    filterLoopF pol nodes (fuel + 1 + 1) idx [acl] =
      .ok [⟨srcs1, dp1, protos⟩, ⟨srcs2, dp2, []⟩] := by
  have hsm : strHasPfx autogroupSelf autogroupMember = false := rfl
  have hpe : parseProtocol "" = .ok ([], false) := rfl
  simp only [filterLoopF, processSources, hact, hsrcs, hmem, hold, hnew,
    hs1, hproto, hdp1, hs2, hdp2, hsm, hpe, Bool.not_true, Bool.not_false,
    Bool.false_eq_true, if_false, if_true, List.append_nil, List.nil_append]

/-- C3.  A rule with action `accept`, a single `autogroup:member`-prefixed
source, and destinations mixing `autogroup:self`-flavored and other
entries compiles to the original rule restricted to the non-self
destinations plus a synthesized rule with source `autogroup:self` over
exactly the self-flavored destinations; the synthesized rule is compiled
too, because the loop iterates by index over the growing rule list. -/
theorem c3_self_split_synthesizes_rule (pol : ACLPolicy) (nodes : List Node)
    (acl : ACL) (s : String) (srcs1 srcs2 : List String) (protos : List Int)
    (wild : Bool) (dp1 dp2 : List NetPortRange)
    (hp : pol.ACLs = [acl])
    (hact : strEq acl.Action "accept" = true)
    (hsrcs : acl.Sources = [s])
    (hmem : strHasPfx s autogroupMember = true)
    (hold : (acl.Destinations.filter
      (fun d => !strHasPfx d autogroupSelf)).isEmpty = false)
    (hnew : (acl.Destinations.filter
      (fun d => strHasPfx d autogroupSelf)).isEmpty = false)
    (hs1 : expandSource pol s nodes = .ok srcs1)
    (hproto : parseProtocol acl.Protocol = .ok (protos, wild))
    (hdp1 : processDests pol nodes acl.Sources wild
      (acl.Destinations.filter (fun d => !strHasPfx d autogroupSelf)) = .ok dp1)
    (hs2 : expandSource pol autogroupSelf nodes = .ok srcs2)
    (hdp2 : processDests pol nodes [autogroupSelf] false
      (acl.Destinations.filter (fun d => strHasPfx d autogroupSelf)) = .ok dp2) :
    CompileFilterRules (some pol) nodes =
      .ok [⟨srcs1, dp1, protos⟩, ⟨srcs2, dp2, []⟩] := by
  rw [hsrcs] at hdp1
  have hw2 : aclsWeight [acl] = 2 := by
    simp only [aclsWeight, List.map_cons, List.map_nil, List.sum_cons,
      List.sum_nil, aclWeight, hsrcs, List.countP_cons, List.countP_nil, hmem]
    simp
  obtain ⟨f, hf⟩ : ∃ f, aclsWeight [acl] = f + 1 + 1 := ⟨0, by omega⟩
  simp only [CompileFilterRules, hp, hf]
  exact filterLoop_split_two pol nodes acl s srcs1 srcs2 protos wild dp1 dp2
    f 0 hact hsrcs hmem hold hnew hs1 hproto hdp1 hs2 hdp2

/-- C3 witness (spec scenario 3): users A and B with one node each, rule
`src:["autogroup:member"], dst:["autogroup:self:22", "10.0.0.0/8:80"]` —
compilation yields the member rule on `10.0.0.0/8:80` plus the synthesized
self rule at port 22. -/
theorem c3_witness_two_users :
    CompileFilterRules
        (some ⟨[], [], [],
          [⟨"accept", "", ["autogroup:member"],
            ["autogroup:self:22", "10.0.0.0/8:80"]⟩], []⟩)
        [⟨1, ⟨1, "userA"⟩, [.v4 (100 * 2 ^ 24 + 64 * 2 ^ 16 + 1)],
          some ⟨[], []⟩, []⟩,
         ⟨2, ⟨2, "userB"⟩, [.v4 (100 * 2 ^ 24 + 64 * 2 ^ 16 + 2)],
          some ⟨[], []⟩, []⟩] =
      .ok [⟨["100.64.0.1/32", "100.64.0.2/32"],
            [⟨"10.0.0.0/8", ⟨80, 80⟩⟩], []⟩,
           ⟨["100.64.0.2/32"], [⟨"100.64.0.2/32", ⟨22, 22⟩⟩], []⟩] :=
  c3_self_split_synthesizes_rule
    ⟨[], [], [],
      [⟨"accept", "", ["autogroup:member"],
        ["autogroup:self:22", "10.0.0.0/8:80"]⟩], []⟩
    [⟨1, ⟨1, "userA"⟩, [.v4 (100 * 2 ^ 24 + 64 * 2 ^ 16 + 1)],
      some ⟨[], []⟩, []⟩,
     ⟨2, ⟨2, "userB"⟩, [.v4 (100 * 2 ^ 24 + 64 * 2 ^ 16 + 2)],
      some ⟨[], []⟩, []⟩]
    ⟨"accept", "", ["autogroup:member"], ["autogroup:self:22", "10.0.0.0/8:80"]⟩
    "autogroup:member" ["100.64.0.1/32", "100.64.0.2/32"] ["100.64.0.2/32"]
    [] false [⟨"10.0.0.0/8", ⟨80, 80⟩⟩] [⟨"100.64.0.2/32", ⟨22, 22⟩⟩]
    rfl (by decide) rfl (by decide) (by decide) (by decide) (by decide)
    (by decide) (by decide) (by decide) (by decide)

/-- Bool equality from the equivalence of the `= true` views. -/
theorem boolEqOfIff {x y : Bool} (h : (x = true) ↔ (y = true)) : x = y := by
  cases x <;> cases y <;> simp_all

/-- C1 amended.  `autogroup:internet` expands to `0.0.0.0/0 ∪ 2000::/3`
minus the eight carve-outs: an address is in the expanded set iff it lies
in `0.0.0.0/0` or `2000::/3` *and* in none of the carve-out prefixes.  (The
claim's "IPv4+IPv6 universe" fails: the IPv6 side is only `2000::/3`, so
e.g. `::1` is outside the set although it lies in no carve-out.) -/
theorem c1_amended_internet_characterization (a : IPAddr) :
    theInternet.containsAddr a =
      (((IPPfx.mk false 0 0).containsAddr a ||
          (IPPfx.mk true (0x2000 * 2 ^ 112) 3).containsAddr a) &&
        !inC1CarveOuts a) := by
  have hT : theInternet =
      ⟨[⟨0, 167772159⟩, ⟨184549376, 1681915903⟩, ⟨1686110208, 2851995647⟩,
        ⟨2852061184, 2886729727⟩, ⟨2887778304, 3232235519⟩,
        ⟨3232301056, 4294967295⟩],
       [⟨42535295865117307932921825928971026432,
         85070591730234615865843651857942052863⟩]⟩ := by decide
  rw [hT]
  cases a with
  | v4 n =>
    apply boolEqOfIff
    simp [IPSet.containsAddr, containsN, inC1CarveOuts, IPPfx.containsAddr,
      IPPfx.lo, IPPfx.hi, IPPfx.width]
    omega
  | v6 n =>
    apply boolEqOfIff
    simp [IPSet.containsAddr, containsN, inC1CarveOuts, IPPfx.containsAddr,
      IPPfx.lo, IPPfx.hi, IPPfx.width]
    omega

end HSPolicy
